import Mathlib

/-!
Verification of the flat-file tabular store in this repository (files
`latest.py`, `new_code.py`, `new_code_2.py`).  The query engine of
`latest.py` is embedded in namespace `MyDB` (the Python class name); the
variant evaluator of `new_code_2.py`, whose rows are positional lists
rather than dicts, is embedded in namespace `MyDB2`.  Python strings are
modelled as `List Char`, Python dict rows as association lists, numeric
values as `ℚ`, and the external functions `sys.getsizeof` and `float`
as explicit parameters of the embedding.
-/

/-- Python strings are modelled as lists of characters. -/
abbrev Str := List Char

/-- The apostrophe character, the argument of the `.strip` calls in the source. -/
def quoteChar : Char := Char.ofNat 39

/-- Tests whether `pre` is a leading segment of `s` (Python `str.startswith`,
used to locate separator occurrences). -/
def beginsWith : Str → Str → Bool
  | [], _ => true
  | _ :: _, [] => false
  | a :: as, b :: bs => a == b && beginsWith as bs

/-- Python `sep in s`: some contiguous run of `s` equals `sep`. -/
def containsSub : Str → Str → Bool
  | [], sep => sep.isEmpty
  | s@(_ :: rest), sep => beginsWith sep s || containsSub rest sep

/-- Worker for `splitOnSub`.  The fuel starts at the length of the string and
is an upper bound for it throughout, so the fuel-zero equation (which returns
the same value as the empty-string equation) is reached only with the empty
string; the scan finds separator occurrences leftmost-first exactly as
Python `str.split` does. -/
def splitGo (sep : Str) : Nat → Str → Str → List Str
  | 0, _, acc => [acc.reverse]
  | _ + 1, [], acc => [acc.reverse]
  | fuel + 1, c :: rest, acc =>
    if beginsWith sep (c :: rest) && !sep.isEmpty then
      acc.reverse :: splitGo sep fuel ((c :: rest).drop sep.length) []
    else
      splitGo sep fuel rest (c :: acc)

/-- Python `s.split(sep)` for a non-empty separator `sep` (all separators in
the source are non-empty literals; Python rejects an empty one). -/
def splitOnSub (sep s : Str) : List Str := splitGo sep s.length s []

/-- Removes the trailing characters of `s` satisfying `p`. -/
def dropEnd (p : Char → Bool) (s : Str) : Str := (s.reverse.dropWhile p).reverse

/-- Python `s.strip()`: removes leading and trailing whitespace. -/
def stripWs (s : Str) : Str := dropEnd Char.isWhitespace (s.dropWhile Char.isWhitespace)

/-- Python `s.strip("'")`: removes every leading and trailing apostrophe. -/
def stripQuotes (s : Str) : Str := dropEnd (· == quoteChar) (s.dropWhile (· == quoteChar))

/-- Python `s.split()` with no argument: whitespace-separated tokens, empty
tokens discarded. -/
def splitWs (s : Str) : List Str :=
  (s.splitOnP Char.isWhitespace).filter (fun w => !w.isEmpty)

/-- Python `' '.join(parts)`. -/
def joinWs (parts : List Str) : Str := List.intercalate [' '] parts

/-- Python string `<`: lexicographic comparison by code point. -/
def strLt : Str → Str → Bool
  | [], [] => false
  | [], _ :: _ => true
  | _ :: _, [] => false
  | a :: as, b :: bs => if a < b then true else if b < a then false else strLt as bs

/-- Python string `<=`: lexicographic comparison by code point. -/
def strLe : Str → Str → Bool
  | [], _ => true
  | _ :: _, [] => false
  | a :: as, b :: bs => if a < b then true else if b < a then false else strLe as bs

/-- Python `s.lower()` (ASCII case folding suffices for the source's inputs). -/
def toLowerStr (s : Str) : Str := s.map Char.toLower

/-- Numeric parser standing in for Python `float` in concrete examples: it
accepts the non-negative integer literals the spec's examples use and
rejects everything else.  All general theorems quantify over an arbitrary
parser, so nothing depends on this choice. -/
def parseNum (s : Str) : Option ℚ :=
  if !s.isEmpty && s.all Char.isDigit then
    some ((s.foldl (fun acc c => 10 * acc + (c.toNat - 48)) 0 : ℕ) : ℚ)
  else none

/-- Errors raised by the evaluators.  The first four are the `ValueError`s
which `_evaluate_where` catches; `keyError` and `indexError` model Python
exceptions that the `except ValueError` handler does not catch. -/
inductive PyErr where
  | invalidCondition
  | unsupportedOperator (op : Str)
  | columnNotFound (c : Str)
  | invalidLike
  | keyError
  | indexError
deriving DecidableEq, Repr

/-- Whether an error is a Python `ValueError` (caught by `_evaluate_where`). -/
def PyErr.isValueError : PyErr → Bool
  | .keyError => false
  | .indexError => false
  | _ => true

/-- Python `any` over a generator: short-circuiting, propagating exceptions. -/
def anyE (f : α → Except PyErr Bool) : List α → Except PyErr Bool
  | [] => .ok false
  | x :: xs =>
    match f x with
    | .error e => .error e
    | .ok true => .ok true
    | .ok false => anyE f xs

/-- Python `all` over a generator: short-circuiting, propagating exceptions. -/
def allE (f : α → Except PyErr Bool) : List α → Except PyErr Bool
  | [] => .ok true
  | x :: xs =>
    match f x with
    | .error e => .error e
    | .ok false => .ok false
    | .ok true => allE f xs

/-- The `try ... except ValueError: return False` wrapper of `_evaluate_where`. -/
def catchVE (r : Except PyErr Bool) : Except PyErr Bool :=
  match r with
  | .error e => if e.isValueError then .ok false else .error e
  | .ok b => .ok b

/-- The row-filtering part of the `select_from` scan loop: rows whose
predicate evaluates false are skipped, errors propagate. -/
def filterE (f : α → Except PyErr Bool) : List α → Except PyErr (List α)
  | [] => .ok []
  | x :: xs =>
    match f x with
    | .error e => .error e
    | .ok true =>
      match filterE f xs with
      | .error e => .error e
      | .ok l => .ok (x :: l)
    | .ok false => filterE f xs

namespace MyDB

/-- Rows read by `csv.DictReader` in `latest.py`: a dict from column name to
field value, modelled as an association list (`row[c]` is `row.lookup c`,
`c in row` is `(row.lookup c).isSome`). -/
abbrev Row := List (Str × Str)

mutual

/-- Embedding of `MyDB._match_like_pattern` from `latest.py` (the identical
function also appears in the two other source files): the recursive
wildcard matcher behind `like`. -/
def match_like_pattern : Str → Str → Bool
  | v, [] => v.isEmpty
  | v, p0 :: p =>
    if p0 = '%' then
      match p with
      | [] => true
      | p1 :: rest =>
        if p1 = '%' then match_like_pattern v (p1 :: rest)
        else suffixScan v (p1 :: rest)
    else if p0 = '_' then
      match v with
      | [] => false
      | _ :: vt => match_like_pattern vt p
    else
      match v with
      | [] => false
      | c :: vt => c == p0 && match_like_pattern vt p
termination_by v p => v.length + 2 * p.length

/-- The `for i in range(len(value))` loop of `_match_like_pattern`: tries
`match_like_pattern value[i:] pattern` for each `i` below `len(value)`. -/
def suffixScan : Str → Str → Bool
  | [], _ => false
  | v :: vt, p => match_like_pattern (v :: vt) p || suffixScan vt p
termination_by v p => v.length + 2 * p.length + 1

end

end MyDB

/-- Reference recursion for the wildcard matcher, written from the claim's
wording: an empty pattern matches only an empty value; a sole percent
matches any value; a percent followed by more pattern matches iff some
suffix of the remaining value matches the rest of the pattern; an
underscore requires a non-empty value and recurses on both tails; any other
leading pattern character must equal the value's first character, recursing
on both tails. -/
def likeRef (v p : Str) : Bool :=
  match p with
  | [] => v.isEmpty
  | p0 :: ps =>
    if p0 = '%' then
      if ps.isEmpty then true
      else (List.range (v.length + 1)).any fun i => likeRef (v.drop i) ps
    else if p0 = '_' then
      match v with
      | [] => false
      | _ :: vt => likeRef vt ps
    else
      match v with
      | [] => false
      | c :: vt => c == p0 && likeRef vt ps
termination_by p.length
decreasing_by all_goals simp

namespace MyDB

theorem mlp_nil_pat (v : Str) : match_like_pattern v [] = v.isEmpty := by
  rw [match_like_pattern.eq_def]

theorem mlp_percent_single (v : Str) : match_like_pattern v (('%') :: []) = true := by
  rw [match_like_pattern.eq_def]
  simp

theorem mlp_percent_percent (v ps : Str) :
    match_like_pattern v (('%') :: ('%') :: ps) = match_like_pattern v (('%') :: ps) := by
  conv_lhs => rw [match_like_pattern.eq_def]
  simp

theorem mlp_percent_other (v ps : Str) (q : Char) (hq : q ≠ '%') :
    match_like_pattern v (('%') :: q :: ps) = suffixScan v (q :: ps) := by
  conv_lhs => rw [match_like_pattern.eq_def]
  simp [hq]

theorem mlp_nil_cons (q : Char) (ps : Str) (hq : q ≠ '%') :
    match_like_pattern [] (q :: ps) = false := by
  rw [match_like_pattern.eq_def]
  simp [hq]

theorem mlp_underscore_cons (c : Char) (v ps : Str) :
    match_like_pattern (c :: v) (('_') :: ps) = match_like_pattern v ps := by
  conv_lhs => rw [match_like_pattern.eq_def]
  simp

theorem mlp_lit_cons (c : Char) (v ps : Str) (q : Char) (hq : q ≠ '%') (hq2 : q ≠ '_') :
    match_like_pattern (c :: v) (q :: ps) = (c == q && match_like_pattern v ps) := by
  conv_lhs => rw [match_like_pattern.eq_def]
  simp [hq, hq2]

theorem suffixScan_iff (p v : Str) :
    suffixScan v p = true ↔ ∃ i, i < v.length ∧ match_like_pattern (v.drop i) p = true := by
  induction v with
  | nil => simp [suffixScan]
  | cons c vt ih =>
    rw [suffixScan]
    simp only [Bool.or_eq_true, ih, List.length_cons]
    constructor
    · rintro (h | ⟨i, hi, hm⟩)
      · exact ⟨0, by omega, h⟩
      · exact ⟨i + 1, by omega, hm⟩
    · rintro ⟨i, hi, hm⟩
      cases i with
      | zero => exact Or.inl hm
      | succ j => exact Or.inr ⟨j, by omega, hm⟩

theorem likeRef_nil_pat (v : Str) : likeRef v [] = v.isEmpty := by
  rw [likeRef.eq_def]

theorem likeRef_nil_cons (q : Char) (ps : Str) (hq : q ≠ '%') :
    likeRef [] (q :: ps) = false := by
  rw [likeRef.eq_def]
  simp [hq]

theorem likeRef_underscore_cons (c : Char) (v ps : Str) :
    likeRef (c :: v) (('_') :: ps) = likeRef v ps := by
  conv_lhs => rw [likeRef.eq_def]
  simp

theorem likeRef_lit_cons (c : Char) (v ps : Str) (q : Char) (hq : q ≠ '%') (hq2 : q ≠ '_') :
    likeRef (c :: v) (q :: ps) = (c == q && likeRef v ps) := by
  conv_lhs => rw [likeRef.eq_def]
  simp [hq, hq2]

theorem likeRef_percent_iff (ps v : Str) :
    likeRef v (('%') :: ps) = true ↔ ∃ k, k ≤ v.length ∧ likeRef (v.drop k) ps = true := by
  cases ps with
  | nil =>
    conv_lhs => rw [likeRef.eq_def]
    simp only [List.isEmpty_nil, if_true, reduceIte]
    constructor
    · intro _
      exact ⟨v.length, le_refl _, by rw [List.drop_length, likeRef_nil_pat]; rfl⟩
    · intro _
      trivial
  | cons q ps' =>
    conv_lhs => rw [likeRef.eq_def]
    simp only [reduceIte, List.isEmpty_cons, Bool.false_eq_true, if_false,
      List.any_eq_true, List.mem_range, Nat.lt_succ_iff]

theorem mlp_percent_iff (ps : Str) : ∀ v : Str,
    match_like_pattern v (('%') :: ps) = true ↔
      ∃ k, k ≤ v.length ∧ match_like_pattern (v.drop k) ps = true := by
  induction ps with
  | nil =>
    intro v
    rw [mlp_percent_single]
    constructor
    · intro _
      exact ⟨v.length, le_refl _, by rw [List.drop_length, mlp_nil_pat]; rfl⟩
    · intro _
      rfl
  | cons q ps' ih =>
    intro v
    by_cases hq : q = '%'
    · subst hq
      rw [mlp_percent_percent, ih v]
      constructor
      · rintro ⟨k, hk, hm⟩
        refine ⟨k, hk, ?_⟩
        rw [ih (v.drop k)]
        exact ⟨0, Nat.zero_le _, hm⟩
      · rintro ⟨k, hk, hm⟩
        rw [ih (v.drop k)] at hm
        obtain ⟨j, hj, hm⟩ := hm
        rw [List.length_drop] at hj
        refine ⟨k + j, by omega, ?_⟩
        rwa [List.drop_drop] at hm
    · rw [mlp_percent_other v ps' q hq, suffixScan_iff]
      constructor
      · rintro ⟨i, hi, hm⟩
        exact ⟨i, by omega, hm⟩
      · rintro ⟨k, hk, hm⟩
        rcases lt_or_eq_of_le hk with h | h
        · exact ⟨k, h, hm⟩
        · rw [h, List.drop_length, mlp_nil_cons q ps' hq] at hm
          exact absurd hm (by simp)

theorem mlp_eq_likeRef (p : Str) : ∀ v : Str, match_like_pattern v p = likeRef v p := by
  induction p with
  | nil =>
    intro v
    rw [mlp_nil_pat, likeRef_nil_pat]
  | cons p0 ps ih =>
    intro v
    by_cases h0 : p0 = '%'
    · subst h0
      rw [Bool.eq_iff_iff, mlp_percent_iff ps v, likeRef_percent_iff ps v]
      constructor
      · rintro ⟨k, hk, hm⟩
        exact ⟨k, hk, by rw [← ih]; exact hm⟩
      · rintro ⟨k, hk, hm⟩
        exact ⟨k, hk, by rw [ih]; exact hm⟩
    · by_cases h1 : p0 = '_'
      · subst h1
        cases v with
        | nil => rw [mlp_nil_cons _ _ h0, likeRef_nil_cons _ _ h0]
        | cons c vt => rw [mlp_underscore_cons, likeRef_underscore_cons, ih vt]
      · cases v with
        | nil => rw [mlp_nil_cons _ _ h0, likeRef_nil_cons _ _ h0]
        | cons c vt => rw [mlp_lit_cons _ _ _ _ h0 h1, likeRef_lit_cons _ _ _ _ h0 h1, ih vt]

end MyDB

/-- C1: `_match_like_pattern` follows the reference recursion (it agrees
with `likeRef`, the matcher written from the claim's wording, on every
value and pattern); in particular a sole percent matches every value, the
empty pattern matches only the empty value, and the claim's concrete
examples all evaluate as stated.  The function is total over all text
inputs by construction. -/
theorem C1_pattern_matcher_follows_reference :
    (∀ v p : Str, MyDB.match_like_pattern v p = likeRef v p)
    ∧ (∀ v : Str, MyDB.match_like_pattern v (('%') :: []) = true)
    ∧ MyDB.match_like_pattern [] [] = true
    ∧ MyDB.match_like_pattern (("a").toList) [] = false
    ∧ MyDB.match_like_pattern (("abc").toList) (("a_c").toList) = true
    ∧ MyDB.match_like_pattern (("abc").toList) (("a__").toList) = true
    ∧ MyDB.match_like_pattern (("abc").toList) (("_b_").toList) = true
    ∧ MyDB.match_like_pattern (("aXbXc").toList) (("a%b%c").toList) = true
    ∧ MyDB.match_like_pattern (("abc").toList) (("%%%").toList) = true := by
  refine ⟨fun v p => MyDB.mlp_eq_likeRef p v, fun v => MyDB.mlp_percent_single v, ?_, ?_, ?_, ?_, ?_, ?_, ?_⟩
  · rw [MyDB.mlp_nil_pat]
    rfl
  · rw [MyDB.mlp_nil_pat]
    rfl
  · simp [MyDB.match_like_pattern]
  · simp [MyDB.match_like_pattern]
  · simp [MyDB.match_like_pattern]
  · simp [MyDB.match_like_pattern, MyDB.suffixScan]
  · simp [MyDB.match_like_pattern, MyDB.suffixScan]

/-- The literal separator for the OR split. -/
def orSep : Str := (" or ").toList

/-- The literal separator for the AND split. -/
def andSep : Str := (" and ").toList

/-- The literal separator for the LIKE split. -/
def likeSep : Str := (" like ").toList

/-- The equals sign, the separator of the rewrite branch of `_evaluate_where`. -/
def eqSep : Str := ("=").toList

namespace MyDB

/-- Embedding of `MyDB._evaluate_single_condition` from `latest.py`: parses a
leaf as `column operator literal` (raising a `ValueError` when fewer than 3
whitespace tokens are present), requires the column to be in the header,
and compares the row value to the quote-stripped literal with Python's
lexicographic string comparisons. -/
def evaluate_single_condition (row : Row) (header : List Str) (condition : Str) :
    Except PyErr Bool :=
  match splitWs condition with
  | column :: operator :: v0 :: vrest =>
    let value := stripQuotes (joinWs (v0 :: vrest))
    if column ∈ header then
      match row.lookup column with
      | none => .error .keyError
      | some row_value =>
        if operator == (("=").toList) || operator == (("==").toList) then
          .ok (row_value == value)
        else if operator == ((">=").toList) then .ok (strLe value row_value)
        else if operator == (("<=").toList) then .ok (strLe row_value value)
        else if operator == ((">").toList) then .ok (strLt value row_value)
        else if operator == (("<").toList) then .ok (strLt row_value value)
        else if operator == (("!=").toList) || operator == (("<>").toList) then
          .ok (!(row_value == value))
        else .error (.unsupportedOperator operator)
    else .error (.columnNotFound column)
  | _ => .error .invalidCondition

/-- Embedding of `MyDB._evaluate_condition` from `latest.py`.  Its Python
body is textually identical to `_evaluate_single_condition`, so it is
defined as the same function. -/
def evaluate_condition (row : Row) (header : List Str) (condition : Str) :
    Except PyErr Bool :=
  evaluate_single_condition row header condition

/-- The rewrite applied to each combinator-free fragment by
`_evaluate_where`: a fragment splitting on the equals sign into exactly two
pieces becomes `pre = post` (both pieces whitespace-stripped, the second
also quote-stripped); any other fragment is dropped. -/
def eqRewrite (condition : Str) : Option Str :=
  match splitOnSub eqSep condition with
  | [p1, p2] => some (stripWs p1 ++ ((" = ").toList) ++ stripQuotes (stripWs p2))
  | _ => none

/-- The body of `MyDB._evaluate_where` from `latest.py` before its
`try/except` wrapper: OR split first (each part evaluated by
`_evaluate_condition`), then AND split (each part evaluated by
`_evaluate_single_condition`), else the equals-rewrite branch. -/
def evaluate_where_core (row : Row) (header : List Str) (where_clause : Str) :
    Except PyErr Bool :=
  if containsSub where_clause orSep then
    anyE (fun c => evaluate_condition row header c) (splitOnSub orSep where_clause)
  else if containsSub where_clause andSep then
    allE (fun c => evaluate_single_condition row header c) (splitOnSub andSep where_clause)
  else
    allE (fun c => evaluate_single_condition row header c)
      ((splitOnSub andSep where_clause).filterMap eqRewrite)

/-- Embedding of `MyDB._evaluate_where` from `latest.py`: the core with the
`except ValueError: print(...); return False` handler. -/
def evaluate_where (row : Row) (header : List Str) (where_clause : Str) :
    Except PyErr Bool :=
  catchVE (evaluate_where_core row header where_clause)

end MyDB

namespace MyDB

/-- The aggregate function selected from the column string of `select_from`. -/
inductive AggFn where
  | count
  | sum
  | avg
  | min
  | max
deriving DecidableEq, Repr

/-- The mutable state of the `select_from` scan loop of `latest.py`. -/
structure ScanState where
  count : ℕ
  sum_value : ℚ
  min_value : Option ℚ
  max_value : Option ℚ
  results : List (List Str)
  seen_values : List (List Str)
  memory_usage : ℕ
deriving Repr

/-- The initial scan state (`count, sum_value, min_value, max_value = 0, 0,
None, None`, empty results, empty dedup set, zero memory usage). -/
def initState : ScanState :=
  ⟨0, 0, none, none, [], [], 0⟩

/-- One aggregate accumulator update of `select_from` for a successfully
parsed value. -/
def aggUpdate : AggFn → ℚ → ScanState → ScanState
  | .count, _, s => { s with count := s.count + 1 }
  | .avg, v, s => { s with sum_value := s.sum_value + v, count := s.count + 1 }
  | .min, v, s =>
    { s with min_value := some (match s.min_value with | none => v | some m => Min.min m v) }
  | .max, v, s =>
    { s with max_value := some (match s.max_value with | none => v | some m => Max.max m v) }
  | .sum, v, s => { s with sum_value := s.sum_value + v }

/-- The guard `where_clause and not self._evaluate_where(...)` of the scan
loop: with no where clause every row passes, otherwise the evaluator
decides (its uncaught errors propagate out of the loop). -/
def wherePassed (row : Row) (header : List Str) : Option Str → Except PyErr Bool
  | none => .ok true
  | some c => evaluate_where row header c

/-- Embedding of the row loop of `MyDB.select_from` from `latest.py`:
filtering by the where clause, then either the aggregate accumulation
(`float` failures and missing keys skip the row) or the projection with the
memory-budget break.  `parse` models `float`, `sizeof` models
`sys.getsizeof`. -/
def scanRows (parse : Str → Option ℚ) (sizeof : Str → ℕ) (header : List Str)
    (where_clause : Option Str) (agg : Option (AggFn × Str)) (distinct : Bool)
    (columns : List Str) (memory_limit : ℕ) :
    List Row → ScanState → Except PyErr ScanState
  | [], s => .ok s
  | row :: rest, s =>
    (wherePassed row header where_clause).bind fun passed =>
      if !passed then
        scanRows parse sizeof header where_clause agg distinct columns memory_limit rest s
      else
        match agg with
        | some (fn, col) =>
          match (row.lookup col).bind parse with
          | none =>
            scanRows parse sizeof header where_clause agg distinct columns memory_limit rest s
          | some value =>
            scanRows parse sizeof header where_clause agg distinct columns memory_limit rest
              (aggUpdate fn value s)
        | none =>
          let row_data := columns.filterMap (fun c => row.lookup c)
          let row_memory := (row_data.map sizeof).sum
          if memory_limit < s.memory_usage + row_memory then .ok s
          else if !distinct || !(decide (row_data ∈ s.seen_values)) then
            scanRows parse sizeof header where_clause agg distinct columns memory_limit rest
              { s with
                results := s.results ++ [row_data],
                memory_usage := s.memory_usage + row_memory,
                seen_values := if distinct then row_data :: s.seen_values else s.seen_values }
          else
            scanRows parse sizeof header where_clause agg distinct columns memory_limit rest s

/-- The observable outcome of `select_from`: a single labelled scalar for an
aggregate query, or the projected result rows together with the printed
memory-usage estimate. -/
inductive SelectOutput where
  | scalarAvg (q : ℚ)
  | scalarCount (n : ℕ)
  | scalarSum (q : ℚ)
  | scalarMin (q : Option ℚ)
  | scalarMax (q : Option ℚ)
  | table (results : List (List Str)) (memory_usage : ℕ)
deriving DecidableEq, Repr

/-- Embedding of `MyDB.select_from` from `latest.py` (the part after the
backing file was found and the aggregate spec extracted from the column
string): runs the scan loop from the initial state and renders the output
of the chosen branch. -/
def select_from (parse : Str → Option ℚ) (sizeof : Str → ℕ) (header : List Str)
    (where_clause : Option Str) (agg : Option (AggFn × Str)) (distinct : Bool)
    (columns : List Str) (memory_limit : ℕ) (rows : List Row) :
    Except PyErr SelectOutput :=
  match scanRows parse sizeof header where_clause agg distinct columns memory_limit
      rows initState with
  | .error e => .error e
  | .ok s =>
    .ok (match agg with
      | some (.avg, _) => .scalarAvg (if s.count > 0 then s.sum_value / s.count else 0)
      | some (.count, _) => .scalarCount s.count
      | some (.sum, _) => .scalarSum s.sum_value
      | some (.min, _) => .scalarMin s.min_value
      | some (.max, _) => .scalarMax s.max_value
      | none => .table s.results s.memory_usage)

/-- Errors of the chunk splitter.  `tableNotFound` models the missing-file
early return, `insufficientRows` the `StopIteration` escaping
`estimate_row_size` when the file has fewer than 10 rows, and
`zeroDivision` Python's `ZeroDivisionError` for a zero estimated row size
(unreachable for `sys.getsizeof`, which is positive). -/
inductive ChunkErr where
  | tableNotFound
  | insufficientRows
  | zeroDivision
deriving DecidableEq, Repr

/-- Embedding of `MyDB.estimate_row_size` from `latest.py`: the average
`sys.getsizeof` footprint of the first 10 rows of the file (integer
division); with fewer than 10 rows `next(reader)` raises. -/
def estimate_row_size (sizeof : List Str → ℕ) (rows : List (List Str)) : Option ℕ :=
  if rows.length < 10 then none
  else some ((((rows.take 10).map sizeof).sum) / 10)

/-- The accumulation loop of `chunk_csv`: rows are appended to the current
chunk, which is emitted as soon as it holds at least `rows_per_chunk` rows;
a non-empty leftover chunk is emitted at the end. -/
def chunkLoop (rows_per_chunk : ℕ) : List (List Str) → List (List Str) → List (List (List Str))
  | [], chunk => if chunk.isEmpty then [] else [chunk]
  | r :: rs, chunk =>
    let c := chunk ++ [r]
    if rows_per_chunk ≤ c.length then c :: chunkLoop rows_per_chunk rs []
    else chunkLoop rows_per_chunk rs c

/-- Embedding of `MyDB.chunk_csv` from `latest.py`: estimates the row size
from the first 10 file rows, derives `rows_per_chunk` by floor division of
the memory budget, and splits the file's row sequence (header line
included, exactly as `csv.reader` yields it) into successive chunks. -/
def chunk_csv (sizeof : List Str → ℕ) (table : Option (List (List Str)))
    (memory_limit : ℕ) : Except ChunkErr (List (List (List Str))) :=
  match table with
  | none => .error .tableNotFound
  | some rows =>
    match estimate_row_size sizeof rows with
    | none => .error .insufficientRows
    | some row_size =>
      if row_size = 0 then .error .zeroDivision
      else .ok (chunkLoop (memory_limit / row_size) rows [])

end MyDB

namespace MyDB2

/-- Rows of `new_code_2.py`, which reads tables with `csv.reader`: a
positional list of field values. -/
abbrev Row := List Str

/-- Embedding of `MyDB._evaluate_single_condition` from `new_code_2.py`:
as in `latest.py`, but the row value is fetched positionally via
`header.index(column)`. -/
def evaluate_single_condition (row : Row) (header : List Str) (condition : Str) :
    Except PyErr Bool :=
  match splitWs condition with
  | column :: operator :: v0 :: vrest =>
    let value := stripQuotes (joinWs (v0 :: vrest))
    if column ∈ header then
      match row.get? (header.indexOf column) with
      | none => .error .indexError
      | some row_value =>
        if operator == (("=").toList) || operator == (("==").toList) then
          .ok (row_value == value)
        else if operator == ((">=").toList) then .ok (strLe value row_value)
        else if operator == (("<=").toList) then .ok (strLe row_value value)
        else if operator == ((">").toList) then .ok (strLt value row_value)
        else if operator == (("<").toList) then .ok (strLt row_value value)
        else if operator == (("!=").toList) || operator == (("<>").toList) then
          .ok (!(row_value == value))
        else .error (.unsupportedOperator operator)
    else .error (.columnNotFound column)
  | _ => .error .invalidCondition

/-- Embedding of `MyDB._evaluate_like_condition` from `new_code_2.py`: the
condition splits on the lowercase separator into a column and a pattern
(whitespace- and quote-stripped), the column must be in the header, and the
row value is matched against the pattern. -/
def evaluate_like_condition (row : Row) (header : List Str) (condition : Str) :
    Except PyErr Bool :=
  match splitOnSub likeSep condition with
  | [p1, p2] =>
    let column := stripWs p1
    let pat := stripQuotes (stripWs p2)
    if column ∈ header then
      match row.get? (header.indexOf column) with
      | none => .error .indexError
      | some row_value => .ok (MyDB.match_like_pattern row_value pat)
    else .error (.columnNotFound column)
  | _ => .error .invalidLike

/-- Embedding of `MyDB._evaluate_condition` from `new_code_2.py`: a leaf
whose lowercased text contains the like separator is routed to the like
evaluator, any other leaf to the comparison evaluator. -/
def evaluate_condition (row : Row) (header : List Str) (condition : Str) :
    Except PyErr Bool :=
  if containsSub (toLowerStr condition) likeSep then
    evaluate_like_condition row header condition
  else
    evaluate_single_condition row header condition

/-- The projection resolution of `select_from` in `new_code_2.py`:
`[header.index(col.strip()) for col in columns if col.strip() in header]`. -/
def col_indices (header : List Str) (columns : List Str) : List ℕ :=
  (columns.filter (fun c => stripWs c ∈ header)).map (fun c => header.indexOf (stripWs c))

/-- The column resolution of `select_from` in `new_code_2.py`: when some
projected column is missing from the header the index list comes up short
and the query aborts with the column-not-found message (`none`). -/
def resolve_columns (header : List Str) (columns : List Str) : Option (List ℕ) :=
  let idx := col_indices header columns
  if idx.length = columns.length then some idx else none

end MyDB2

/-- Reference truncation policy from the claim: starting from an
accumulated footprint, a projected tuple is appended only while the
accumulated footprint plus that tuple's estimated footprint does not
exceed the budget; the first tuple that would exceed it stops the scan
and the remainder of the stream is dropped. -/
def greedyTake (tupleMem : List Str → ℕ) (limit : ℕ) : List (List Str) → ℕ → List (List Str)
  | [], _ => []
  | t :: ts, mem =>
    if limit < mem + tupleMem t then []
    else t :: greedyTake tupleMem limit ts (mem + tupleMem t)

/-- Reference chunking from the claim: successive chunks each hold exactly
the target row count (the derived rows-per-chunk with a minimum of 1) in
original row order, the final chunk possibly smaller. -/
def chunkRef (m : ℕ) : List (List Str) → List (List (List Str))
  | [] => []
  | r :: rs => ((r :: rs).take (m.max 1)) :: chunkRef m ((r :: rs).drop (m.max 1))
termination_by l => l.length
decreasing_by simp [List.length_drop]

theorem splitGo_no_occurrence (sep : Str) :
    ∀ (fuel : ℕ) (s acc : Str), s.length ≤ fuel → containsSub s sep = false →
      splitGo sep fuel s acc = [acc.reverse ++ s] := by
  intro fuel
  induction fuel with
  | zero =>
    intro s acc hlen _
    have : s = [] := List.length_eq_zero.mp (Nat.le_zero.mp hlen)
    subst this
    simp [splitGo]
  | succ n ih =>
    intro s acc hlen hno
    cases s with
    | nil => simp [splitGo]
    | cons c rest =>
      rw [containsSub] at hno
      have hb : beginsWith sep (c :: rest) = false := by
        cases h : beginsWith sep (c :: rest) <;> simp [h] at hno ⊢
      have hr : containsSub rest sep = false := by
        cases h : containsSub rest sep <;> simp [h, hb] at hno ⊢
      rw [splitGo, hb]
      simp only [Bool.false_and, Bool.false_eq_true, if_false]
      rw [ih rest (c :: acc) (by simp at hlen; omega) hr]
      simp

theorem splitOnSub_no_occurrence (sep s : Str) (h : containsSub s sep = false) :
    splitOnSub sep s = [s] := by
  rw [splitOnSub, splitGo_no_occurrence sep s.length s [] (le_refl _) h]
  rfl

theorem allE_singleton (f : α → Except PyErr Bool) (x : α) : allE f [x] = f x := by
  rw [allE]
  rcases f x with e | b
  · rfl
  · cases b <;> rfl

namespace MyDB

theorem single_cond_eval (row : Row) (header : List Str)
    (cond col op v0 : Str) (vrest : List Str) (rv : Str)
    (hsplit : splitWs cond = col :: op :: v0 :: vrest)
    (hcol : col ∈ header) (hrv : row.lookup col = some rv) :
    evaluate_single_condition row header cond =
      (let value := stripQuotes (joinWs (v0 :: vrest))
       if op == (("=").toList) || op == (("==").toList) then .ok (rv == value)
       else if op == ((">=").toList) then .ok (strLe value rv)
       else if op == (("<=").toList) then .ok (strLe rv value)
       else if op == ((">").toList) then .ok (strLt value rv)
       else if op == (("<").toList) then .ok (strLt rv value)
       else if op == (("!=").toList) || op == (("<>").toList) then .ok (!(rv == value))
       else .error (.unsupportedOperator op)) := by
  unfold evaluate_single_condition
  rw [hsplit]
  simp [hcol, hrv]

end MyDB

/-- C2: whenever the where clause contains the substring ` or `, evaluation
splits on it and returns the logical OR of evaluating each part (wrapped in
the ValueError handler); only when ` or ` is absent does the clause split
on ` and ` into a logical AND; hence a clause containing both substrings is
evaluated using only the OR-split branch. -/
theorem C2_or_split_precedence :
    (∀ (row : MyDB.Row) (header : List Str) (clause : Str),
      containsSub clause orSep = true →
      MyDB.evaluate_where row header clause =
        catchVE (anyE (fun c => MyDB.evaluate_condition row header c)
          (splitOnSub orSep clause)))
    ∧ (∀ (row : MyDB.Row) (header : List Str) (clause : Str),
      containsSub clause orSep = false →
      containsSub clause andSep = true →
      MyDB.evaluate_where row header clause =
        catchVE (allE (fun c => MyDB.evaluate_single_condition row header c)
          (splitOnSub andSep clause)))
    ∧ (∀ (row : MyDB.Row) (header : List Str) (clause : Str),
      containsSub clause andSep = true →
      containsSub clause orSep = true →
      MyDB.evaluate_where row header clause =
        catchVE (anyE (fun c => MyDB.evaluate_condition row header c)
          (splitOnSub orSep clause))) := by
  refine ⟨?_, ?_, ?_⟩
  · intro row header clause h
    simp [MyDB.evaluate_where, MyDB.evaluate_where_core, h]
  · intro row header clause h1 h2
    simp [MyDB.evaluate_where, MyDB.evaluate_where_core, h1, h2]
  · intro row header clause _ h
    simp [MyDB.evaluate_where, MyDB.evaluate_where_core, h]

theorem C2_or_split_precedence_witness :
    containsSub (("x = 1 and y = 2 or y = 2").toList) andSep = true
    ∧ containsSub (("x = 1 and y = 2 or y = 2").toList) orSep = true
    ∧ MyDB.evaluate_where [((("x").toList), (("1").toList)), ((("y").toList), (("2").toList))]
        [(("x").toList), (("y").toList)] (("x = 1 and y = 2 or y = 2").toList) =
      catchVE (anyE
        (fun c => MyDB.evaluate_condition
          [((("x").toList), (("1").toList)), ((("y").toList), (("2").toList))]
          [(("x").toList), (("y").toList)] c)
        (splitOnSub orSep (("x = 1 and y = 2 or y = 2").toList))) :=
  ⟨rfl, rfl,
    C2_or_split_precedence.2.2
      [((("x").toList), (("1").toList)), ((("y").toList), (("2").toList))]
      [(("x").toList), (("y").toList)] (("x = 1 and y = 2 or y = 2").toList) rfl rfl⟩

/-- C3 counterexample: with header `x`, row `x = 10` and the combinator-free
clause `x > 9`, the claim predicts the lexicographic comparison
`10 > 9` (which is false, since `9 > 10` textually), yet
`_evaluate_where` returns true: the combinator-free branch never parses a
`column operator literal` leaf unless the fragment contains exactly one
equals sign, and drops the fragment here, leaving a vacuous conjunction. -/
theorem C3_counterexample :
    MyDB.evaluate_where [((("x").toList), (("10").toList))] [(("x").toList)]
        (("x > 9").toList) = .ok true
    ∧ strLt (("9").toList) (("10").toList) = false :=
  ⟨rfl, rfl⟩

/-- C3 amended: a where clause containing neither ` or ` nor ` and ` is
evaluated by the equals-rewrite branch: a fragment that splits on the
equals sign into exactly two pieces is rewritten to `pre = post` (stripped)
and evaluated as one leaf by `_evaluate_single_condition`; any other
fragment is dropped, so such a clause evaluates vacuously true.  Leaves
that do reach `_evaluate_single_condition` compare the row value against
the quote-stripped whitespace-joined literal by lexicographic string
comparison for every operator in the recognized set, with no numeric
coercion — e.g. `9 > 10` is textually true. -/
theorem C3_leaf_clause_amended :
    (∀ (row : MyDB.Row) (header : List Str) (clause : Str),
      containsSub clause orSep = false →
      containsSub clause andSep = false →
      MyDB.evaluate_where row header clause =
        catchVE (allE (fun c => MyDB.evaluate_single_condition row header c)
          ((splitOnSub andSep clause).filterMap MyDB.eqRewrite)))
    ∧ (∀ (row : MyDB.Row) (header : List Str) (clause : Str),
      containsSub clause orSep = false →
      containsSub clause andSep = false →
      MyDB.eqRewrite clause = none →
      MyDB.evaluate_where row header clause = .ok true)
    ∧ (∀ (row : MyDB.Row) (header : List Str) (clause rewritten : Str),
      containsSub clause orSep = false →
      containsSub clause andSep = false →
      MyDB.eqRewrite clause = some rewritten →
      MyDB.evaluate_where row header clause =
        catchVE (MyDB.evaluate_single_condition row header rewritten))
    ∧ (∀ (row : MyDB.Row) (header : List Str) (cond col op v0 : Str)
        (vrest : List Str) (rv : Str),
      splitWs cond = col :: op :: v0 :: vrest →
      col ∈ header →
      row.lookup col = some rv →
      (op = (("<").toList) →
        MyDB.evaluate_single_condition row header cond =
          .ok (strLt rv (stripQuotes (joinWs (v0 :: vrest)))))
      ∧ (op = ((">").toList) →
        MyDB.evaluate_single_condition row header cond =
          .ok (strLt (stripQuotes (joinWs (v0 :: vrest))) rv))
      ∧ (op = (("<=").toList) →
        MyDB.evaluate_single_condition row header cond =
          .ok (strLe rv (stripQuotes (joinWs (v0 :: vrest)))))
      ∧ (op = ((">=").toList) →
        MyDB.evaluate_single_condition row header cond =
          .ok (strLe (stripQuotes (joinWs (v0 :: vrest))) rv))
      ∧ (op = (("=").toList) ∨ op = (("==").toList) →
        MyDB.evaluate_single_condition row header cond =
          .ok (rv == stripQuotes (joinWs (v0 :: vrest))))
      ∧ (op = (("!=").toList) ∨ op = (("<>").toList) →
        MyDB.evaluate_single_condition row header cond =
          .ok (!(rv == stripQuotes (joinWs (v0 :: vrest))))))
    ∧ MyDB.evaluate_where [((("x").toList), (("9").toList))] [(("x").toList)]
        (("x > 10 and x > 10").toList) = .ok true := by
  refine ⟨?_, ?_, ?_, ?_, rfl⟩
  · intro row header clause h1 h2
    simp [MyDB.evaluate_where, MyDB.evaluate_where_core, h1, h2]
  · intro row header clause h1 h2 hnone
    simp [MyDB.evaluate_where, MyDB.evaluate_where_core, h1, h2,
      splitOnSub_no_occurrence _ _ h2, List.filterMap_cons, hnone, allE, catchVE]
  · intro row header clause rewritten h1 h2 hsome
    simp only [MyDB.evaluate_where, MyDB.evaluate_where_core, h1, h2,
      Bool.false_eq_true, if_false, splitOnSub_no_occurrence _ _ h2,
      List.filterMap_cons, hsome, List.filterMap_nil, allE_singleton]
  · intro row header cond col op v0 vrest rv hsplit hcol hrv
    have key := MyDB.single_cond_eval row header cond col op v0 vrest rv hsplit hcol hrv
    refine ⟨?_, ?_, ?_, ?_, ?_, ?_⟩
    · intro hop
      subst hop
      rw [key]
      rfl
    · intro hop
      subst hop
      rw [key]
      rfl
    · intro hop
      subst hop
      rw [key]
      rfl
    · intro hop
      subst hop
      rw [key]
      rfl
    · rintro (hop | hop) <;> (subst hop; rw [key]; rfl)
    · rintro (hop | hop) <;> (subst hop; rw [key]; rfl)

theorem C3_leaf_clause_amended_witness :
    MyDB.eqRewrite (("x = 5").toList) = some (("x = 5").toList)
    ∧ MyDB.evaluate_where [((("x").toList), (("5").toList))] [(("x").toList)]
        (("x = 5").toList) =
      catchVE (MyDB.evaluate_single_condition [((("x").toList), (("5").toList))]
        [(("x").toList)] (("x = 5").toList)) :=
  ⟨rfl, C3_leaf_clause_amended.2.2.1 [((("x").toList), (("5").toList))]
    [(("x").toList)] (("x = 5").toList) (("x = 5").toList) rfl rfl rfl⟩

/-- C4 counterexample: in `latest.py` a like leaf is never routed to the
pattern matcher: with header `x`, row `x = abc` and clause `x like z%` the
claim predicts `matches(abc, z%) = false`, but `_evaluate_where` evaluates
the clause through the equals-rewrite branch, drops the fragment (it
contains no equals sign) and returns the vacuous true. -/
theorem C4_counterexample :
    MyDB.evaluate_where [((("x").toList), (("abc").toList))] [(("x").toList)]
        (("x like z%").toList) = .ok true
    ∧ MyDB.match_like_pattern (("abc").toList) (("z%").toList) = false :=
  ⟨rfl, by simp [MyDB.match_like_pattern]⟩

/-- C4 amended: the routing holds in the evaluator of `new_code_2.py`: a
leaf whose lowercased text contains ` like ` is routed to
`_evaluate_like_condition` (any other leaf to the comparison evaluator),
which splits the original condition on the lowercase separator into a
column and a quote-stripped pattern (raising the invalid-like error unless
exactly two pieces result, so an uppercase `LIKE` is detected but fails to
split), fails with the column-not-found error when the column is absent
from the header, and otherwise returns `matches(row[column], pattern)`.
In `latest.py` the where-clause evaluator never calls the like machinery. -/
theorem C4_like_routing_amended :
    (∀ (row : MyDB2.Row) (header : List Str) (cond : Str),
      containsSub (toLowerStr cond) likeSep = true →
      MyDB2.evaluate_condition row header cond =
        MyDB2.evaluate_like_condition row header cond)
    ∧ (∀ (row : MyDB2.Row) (header : List Str) (cond : Str),
      containsSub (toLowerStr cond) likeSep = false →
      MyDB2.evaluate_condition row header cond =
        MyDB2.evaluate_single_condition row header cond)
    ∧ (∀ (row : MyDB2.Row) (header : List Str) (cond p1 p2 : Str),
      splitOnSub likeSep cond = [p1, p2] →
      (stripWs p1 ∉ header →
        MyDB2.evaluate_like_condition row header cond =
          .error (.columnNotFound (stripWs p1)))
      ∧ (∀ rv : Str, stripWs p1 ∈ header →
        row[header.indexOf (stripWs p1)]? = some rv →
        MyDB2.evaluate_like_condition row header cond =
          .ok (MyDB.match_like_pattern rv (stripQuotes (stripWs p2)))))
    ∧ (∀ (row : MyDB2.Row) (header : List Str) (cond : Str) (parts : List Str),
      splitOnSub likeSep cond = parts →
      parts.length ≠ 2 →
      MyDB2.evaluate_like_condition row header cond = .error .invalidLike) := by
  refine ⟨?_, ?_, ?_, ?_⟩
  · intro row header cond h
    simp [MyDB2.evaluate_condition, h]
  · intro row header cond h
    simp [MyDB2.evaluate_condition, h]
  · intro row header cond p1 p2 hsplit
    constructor
    · intro hnot
      unfold MyDB2.evaluate_like_condition
      rw [hsplit]
      simp [hnot]
    · intro rv hin hrv
      unfold MyDB2.evaluate_like_condition
      rw [hsplit]
      simp [hin, hrv]
  · intro row header cond parts hsplit hlen
    unfold MyDB2.evaluate_like_condition
    rw [hsplit]
    rcases parts with _ | ⟨a, _ | ⟨b, _ | ⟨c, rest⟩⟩⟩
    · rfl
    · rfl
    · exact absurd rfl hlen
    · rfl

theorem C4_like_routing_amended_witness :
    splitOnSub likeSep (("x like a%").toList) = [(("x").toList), (("a%").toList)]
    ∧ MyDB2.evaluate_like_condition [(("abc").toList)] [(("x").toList)]
        (("x like a%").toList) =
      .ok (MyDB.match_like_pattern (("abc").toList) (stripQuotes (stripWs (("a%").toList))))
    ∧ MyDB.match_like_pattern (("abc").toList) (("a%").toList) = true :=
  ⟨rfl,
    (C4_like_routing_amended.2.2.1 [(("abc").toList)] [(("x").toList)]
      (("x like a%").toList) (("x").toList) (("a%").toList) rfl).2
      (("abc").toList) (by decide) rfl,
    by simp [MyDB.match_like_pattern, MyDB.suffixScan]⟩

namespace MyDB

theorem scanRows_agg (parse : Str → Option ℚ) (sizeof : Str → ℕ) (header : List Str)
    (fn : AggFn) (col : Str) (distinct : Bool) (columns : List Str) (limit : ℕ) :
    ∀ (rows : List Row) (s : ScanState),
      scanRows parse sizeof header none (some (fn, col)) distinct columns limit rows s =
        .ok ((rows.filterMap (fun r => (r.lookup col).bind parse)).foldl
          (fun st v => aggUpdate fn v st) s) := by
  intro rows
  induction rows with
  | nil =>
    intro s
    rfl
  | cons r rest ih =>
    intro s
    rw [scanRows]
    simp only [wherePassed, Except.bind, Bool.not_true, Bool.false_eq_true, if_false,
      List.filterMap_cons]
    rcases h : (r.lookup col).bind parse with _ | v
    · simpa using ih s
    · simpa using ih (aggUpdate fn v s)

theorem foldl_count (vals : List ℚ) : ∀ s : ScanState,
    (vals.foldl (fun st v => aggUpdate AggFn.count v st) s).count = s.count + vals.length := by
  induction vals with
  | nil => intro s; simp
  | cons v vs ih =>
    intro s
    rw [List.foldl_cons, ih]
    simp [aggUpdate]
    omega

theorem foldl_sum (vals : List ℚ) : ∀ s : ScanState,
    (vals.foldl (fun st v => aggUpdate AggFn.sum v st) s).sum_value =
      s.sum_value + vals.sum := by
  induction vals with
  | nil => intro s; simp
  | cons v vs ih =>
    intro s
    rw [List.foldl_cons, ih]
    simp [aggUpdate]
    ring

theorem foldl_avg (vals : List ℚ) : ∀ s : ScanState,
    (vals.foldl (fun st v => aggUpdate AggFn.avg v st) s).count = s.count + vals.length
    ∧ (vals.foldl (fun st v => aggUpdate AggFn.avg v st) s).sum_value =
        s.sum_value + vals.sum := by
  induction vals with
  | nil => intro s; simp
  | cons v vs ih =>
    intro s
    rw [List.foldl_cons]
    refine ⟨?_, ?_⟩
    · rw [(ih _).1]
      simp [aggUpdate]
      omega
    · rw [(ih _).2]
      simp [aggUpdate]
      ring

theorem foldl_min_some (vals : List ℚ) : ∀ (s : ScanState) (m : ℚ),
    s.min_value = some m →
    (vals.foldl (fun st v => aggUpdate AggFn.min v st) s).min_value =
      some (vals.foldl Min.min m) := by
  induction vals with
  | nil =>
    intro s m h
    simpa using h
  | cons v vs ih =>
    intro s m h
    rw [List.foldl_cons, List.foldl_cons]
    exact ih _ _ (by simp [aggUpdate, h])

theorem foldl_min_none (vals : List ℚ) (s : ScanState) (h : s.min_value = none) :
    (vals.foldl (fun st v => aggUpdate AggFn.min v st) s).min_value =
      (match vals with
       | [] => none
       | v :: vs => some (vs.foldl Min.min v)) := by
  cases vals with
  | nil => simpa using h
  | cons v vs =>
    rw [List.foldl_cons]
    exact foldl_min_some vs _ v (by simp [aggUpdate, h])

theorem foldl_max_some (vals : List ℚ) : ∀ (s : ScanState) (m : ℚ),
    s.max_value = some m →
    (vals.foldl (fun st v => aggUpdate AggFn.max v st) s).max_value =
      some (vals.foldl Max.max m) := by
  induction vals with
  | nil =>
    intro s m h
    simpa using h
  | cons v vs ih =>
    intro s m h
    rw [List.foldl_cons, List.foldl_cons]
    exact ih _ _ (by simp [aggUpdate, h])

theorem foldl_max_none (vals : List ℚ) (s : ScanState) (h : s.max_value = none) :
    (vals.foldl (fun st v => aggUpdate AggFn.max v st) s).max_value =
      (match vals with
       | [] => none
       | v :: vs => some (vs.foldl Max.max v)) := by
  cases vals with
  | nil => simpa using h
  | cons v vs =>
    rw [List.foldl_cons]
    exact foldl_max_some vs _ v (by simp [aggUpdate, h])

end MyDB

/-- C5: over any (already filtered) row stream and aggregate target column,
`count` is the number of rows whose value in that column parses as a
number, `sum` the running sum of parsed values, `avg` equals `sum/count`
over the parsed rows and `0` when none parsed, and `min`/`max` the running
extremum over parsed values, lazily initialized on the first parsed value
and absent (`none`) when no row parses; rows failing numeric parsing are
silently excluded without aborting the scan (the result is always `ok`),
and the output is a single scalar.  Concretely, `count` over values
`1, a, 3` is 2, `avg` over `1, 2, 3` is 2, and `min`/`max` over an
all-non-numeric column yield no value. -/
theorem C5_aggregate_semantics :
    (∀ (parse : Str → Option ℚ) (sizeof : Str → ℕ) (header : List Str) (distinct : Bool)
      (columns : List Str) (limit : ℕ) (col : Str) (rows : List MyDB.Row),
      MyDB.select_from parse sizeof header none (some (.count, col)) distinct columns limit
        rows =
        .ok (.scalarCount (rows.filterMap (fun r => (r.lookup col).bind parse)).length))
    ∧ (∀ (parse : Str → Option ℚ) (sizeof : Str → ℕ) (header : List Str) (distinct : Bool)
      (columns : List Str) (limit : ℕ) (col : Str) (rows : List MyDB.Row),
      MyDB.select_from parse sizeof header none (some (.sum, col)) distinct columns limit
        rows =
        .ok (.scalarSum (rows.filterMap (fun r => (r.lookup col).bind parse)).sum))
    ∧ (∀ (parse : Str → Option ℚ) (sizeof : Str → ℕ) (header : List Str) (distinct : Bool)
      (columns : List Str) (limit : ℕ) (col : Str) (rows : List MyDB.Row),
      MyDB.select_from parse sizeof header none (some (.avg, col)) distinct columns limit
        rows =
        .ok (.scalarAvg
          (if 0 < (rows.filterMap (fun r => (r.lookup col).bind parse)).length then
            (rows.filterMap (fun r => (r.lookup col).bind parse)).sum /
              ((rows.filterMap (fun r => (r.lookup col).bind parse)).length : ℚ)
          else 0)))
    ∧ (∀ (parse : Str → Option ℚ) (sizeof : Str → ℕ) (header : List Str) (distinct : Bool)
      (columns : List Str) (limit : ℕ) (col : Str) (rows : List MyDB.Row),
      MyDB.select_from parse sizeof header none (some (.min, col)) distinct columns limit
        rows =
        .ok (.scalarMin
          (match rows.filterMap (fun r => (r.lookup col).bind parse) with
           | [] => none
           | v :: vs => some (vs.foldl Min.min v))))
    ∧ (∀ (parse : Str → Option ℚ) (sizeof : Str → ℕ) (header : List Str) (distinct : Bool)
      (columns : List Str) (limit : ℕ) (col : Str) (rows : List MyDB.Row),
      MyDB.select_from parse sizeof header none (some (.max, col)) distinct columns limit
        rows =
        .ok (.scalarMax
          (match rows.filterMap (fun r => (r.lookup col).bind parse) with
           | [] => none
           | v :: vs => some (vs.foldl Max.max v))))
    ∧ MyDB.select_from parseNum (fun _ => 0) [(("c").toList)] none
        (some (.count, (("c").toList))) false [] 0
        [[((("c").toList), (("1").toList))], [((("c").toList), (("a").toList))],
         [((("c").toList), (("3").toList))]] = .ok (.scalarCount 2)
    ∧ MyDB.select_from parseNum (fun _ => 0) [(("c").toList)] none
        (some (.avg, (("c").toList))) false [] 0
        [[((("c").toList), (("1").toList))], [((("c").toList), (("2").toList))],
         [((("c").toList), (("3").toList))]] = .ok (.scalarAvg 2)
    ∧ MyDB.select_from parseNum (fun _ => 0) [(("c").toList)] none
        (some (.min, (("c").toList))) false [] 0
        [[((("c").toList), (("a").toList))], [((("c").toList), (("b").toList))]] =
      .ok (.scalarMin none)
    ∧ MyDB.select_from parseNum (fun _ => 0) [(("c").toList)] none
        (some (.max, (("c").toList))) false [] 0
        [[((("c").toList), (("a").toList))], [((("c").toList), (("b").toList))]] =
      .ok (.scalarMax none) := by
  have hcount : ∀ (parse : Str → Option ℚ) (sizeof : Str → ℕ) (header : List Str)
      (distinct : Bool) (columns : List Str) (limit : ℕ) (col : Str) (rows : List MyDB.Row),
      MyDB.select_from parse sizeof header none (some (.count, col)) distinct columns limit
        rows =
        .ok (.scalarCount (rows.filterMap (fun r => (r.lookup col).bind parse)).length) := by
    intro parse sizeof header distinct columns limit col rows
    simp only [MyDB.select_from]
    rw [MyDB.scanRows_agg]
    simp [MyDB.foldl_count, MyDB.initState]
  have havg : ∀ (parse : Str → Option ℚ) (sizeof : Str → ℕ) (header : List Str)
      (distinct : Bool) (columns : List Str) (limit : ℕ) (col : Str) (rows : List MyDB.Row),
      MyDB.select_from parse sizeof header none (some (.avg, col)) distinct columns limit
        rows =
        .ok (.scalarAvg
          (if 0 < (rows.filterMap (fun r => (r.lookup col).bind parse)).length then
            (rows.filterMap (fun r => (r.lookup col).bind parse)).sum /
              ((rows.filterMap (fun r => (r.lookup col).bind parse)).length : ℚ)
          else 0)) := by
    intro parse sizeof header distinct columns limit col rows
    have h := MyDB.foldl_avg (rows.filterMap (fun r => (r.lookup col).bind parse)) MyDB.initState
    simp only [MyDB.select_from]
    rw [MyDB.scanRows_agg]
    simp only [h.1, h.2]
    simp [MyDB.initState]
  refine ⟨hcount, ?_, havg, ?_, ?_, ?_, ?_, ?_, ?_⟩
  · intro parse sizeof header distinct columns limit col rows
    simp only [MyDB.select_from]
    rw [MyDB.scanRows_agg]
    simp [MyDB.foldl_sum, MyDB.initState]
  · intro parse sizeof header distinct columns limit col rows
    have h := MyDB.foldl_min_none (rows.filterMap (fun r => (r.lookup col).bind parse))
      MyDB.initState rfl
    simp only [MyDB.select_from]
    rw [MyDB.scanRows_agg]
    simp [h]
  · intro parse sizeof header distinct columns limit col rows
    have h := MyDB.foldl_max_none (rows.filterMap (fun r => (r.lookup col).bind parse))
      MyDB.initState rfl
    simp only [MyDB.select_from]
    rw [MyDB.scanRows_agg]
    simp [h]
  · rfl
  · rw [havg]
    have hv : List.filterMap (fun r => (List.lookup (("c").toList) r).bind parseNum)
        [[((("c").toList), (("1").toList))], [((("c").toList), (("2").toList))],
         [((("c").toList), (("3").toList))]] =
        [((1 : ℕ) : ℚ), ((2 : ℕ) : ℚ), ((3 : ℕ) : ℚ)] := rfl
    rw [hv]
    norm_num [List.sum_cons, List.sum_nil]
  · rfl
  · rfl

namespace MyDB

theorem scanRows_project (parse : Str → Option ℚ) (sizeof : Str → ℕ) (header : List Str)
    (columns : List Str) (limit : ℕ) :
    ∀ (rows : List Row) (s : ScanState),
      scanRows parse sizeof header none none false columns limit rows s =
        .ok { s with
          results := s.results ++
            greedyTake (fun t => (t.map sizeof).sum) limit
              (rows.map (fun r => columns.filterMap (fun c => r.lookup c))) s.memory_usage,
          memory_usage := s.memory_usage +
            ((greedyTake (fun t => (t.map sizeof).sum) limit
              (rows.map (fun r => columns.filterMap (fun c => r.lookup c)))
                s.memory_usage).map (fun t => (t.map sizeof).sum)).sum } := by
  intro rows
  induction rows with
  | nil =>
    intro s
    simp [scanRows, greedyTake]
  | cons r rest ih =>
    intro s
    rw [scanRows]
    simp only [wherePassed, Except.bind, Bool.not_true, Bool.not_false, Bool.true_or,
      Bool.false_eq_true, if_false, if_true, List.map_cons, reduceIte, ite_true, ite_false]
    rw [greedyTake]
    by_cases hb : limit < s.memory_usage +
        ((columns.filterMap (fun c => r.lookup c)).map sizeof).sum
    · rw [if_pos hb, if_pos hb]
      simp
    · rw [if_neg hb, if_neg hb, ih]
      simp [List.append_assoc, Nat.add_assoc]

end MyDB

/-- C6 counterexample: the caller is not informed whether a budget stop
occurred — `select_from` reports only the result rows and the accumulated
memory estimate, and these do not determine truncation: a scan of two rows
that stops after the first (budget 1, both row footprints 1) produces
exactly the same output as an untruncated scan of the one-row table. -/
theorem C6_counterexample :
    MyDB.select_from parseNum List.length [(("x").toList)] none none false
        [(("x").toList)] 1
        [[((("x").toList), (("a").toList))], [((("x").toList), (("b").toList))]] =
      MyDB.select_from parseNum List.length [(("x").toList)] none none false
        [(("x").toList)] 1
        [[((("x").toList), (("a").toList))]]
    ∧ MyDB.select_from parseNum List.length [(("x").toList)] none none false
        [(("x").toList)] 1
        [[((("x").toList), (("a").toList))], [((("x").toList), (("b").toList))]] =
      .ok (.table [[(("a").toList)]] 1) :=
  ⟨rfl, rfl⟩

/-- C6 amended: the projection scan appends a row only while the
accumulated footprint plus that row's footprint stays within the budget;
the first row that would exceed it ends the scan normally with the partial
result final (the result equals the reference `greedyTake` policy); with a
budget below the first row's footprint the result set is empty, and with a
budget covering every row's footprint the result is the full projected
set.  No truncation flag is reported (see the counterexample). -/
theorem C6_memory_budget_amended :
    (∀ (parse : Str → Option ℚ) (sizeof : Str → ℕ) (header : List Str)
      (columns : List Str) (limit : ℕ) (rows : List MyDB.Row),
      MyDB.select_from parse sizeof header none none false columns limit rows =
        .ok (.table
          (greedyTake (fun t => (t.map sizeof).sum) limit
            (rows.map (fun r => columns.filterMap (fun c => r.lookup c))) 0)
          (((greedyTake (fun t => (t.map sizeof).sum) limit
            (rows.map (fun r => columns.filterMap (fun c => r.lookup c))) 0).map
              (fun t => (t.map sizeof).sum)).sum)))
    ∧ (∀ (parse : Str → Option ℚ) (sizeof : Str → ℕ) (header : List Str)
      (columns : List Str) (limit : ℕ) (r : MyDB.Row) (rest : List MyDB.Row),
      limit < ((columns.filterMap (fun c => r.lookup c)).map sizeof).sum →
      MyDB.select_from parse sizeof header none none false columns limit (r :: rest) =
        .ok (.table [] 0))
    ∧ (∀ (parse : Str → Option ℚ) (sizeof : Str → ℕ) (header : List Str)
      (columns : List Str) (limit : ℕ) (rows : List MyDB.Row),
      ((rows.map (fun r => columns.filterMap (fun c => r.lookup c))).map
        (fun t => (t.map sizeof).sum)).sum ≤ limit →
      MyDB.select_from parse sizeof header none none false columns limit rows =
        .ok (.table
          (rows.map (fun r => columns.filterMap (fun c => r.lookup c)))
          (((rows.map (fun r => columns.filterMap (fun c => r.lookup c))).map
            (fun t => (t.map sizeof).sum)).sum))) := by
  have hall : ∀ (tm : List Str → ℕ) (limit : ℕ) (ts : List (List Str)) (mem : ℕ),
      mem + (ts.map tm).sum ≤ limit → greedyTake tm limit ts mem = ts := by
    intro tm limit ts
    induction ts with
    | nil =>
      intro mem _
      rfl
    | cons t ts ih =>
      intro mem h
      simp only [List.map_cons, List.sum_cons] at h
      rw [greedyTake, if_neg (by omega), ih (mem + tm t) (by omega)]
  have hmain : ∀ (parse : Str → Option ℚ) (sizeof : Str → ℕ) (header : List Str)
      (columns : List Str) (limit : ℕ) (rows : List MyDB.Row),
      MyDB.select_from parse sizeof header none none false columns limit rows =
        .ok (.table
          (greedyTake (fun t => (t.map sizeof).sum) limit
            (rows.map (fun r => columns.filterMap (fun c => r.lookup c))) 0)
          (((greedyTake (fun t => (t.map sizeof).sum) limit
            (rows.map (fun r => columns.filterMap (fun c => r.lookup c))) 0).map
              (fun t => (t.map sizeof).sum)).sum)) := by
    intro parse sizeof header columns limit rows
    simp only [MyDB.select_from]
    rw [MyDB.scanRows_project]
    simp [MyDB.initState]
  refine ⟨hmain, ?_, ?_⟩
  · intro parse sizeof header columns limit r rest h
    rw [hmain]
    rw [List.map_cons, greedyTake, if_pos (by omega)]
    rfl
  · intro parse sizeof header columns limit rows h
    rw [hmain, hall _ _ _ _ (by omega)]

theorem C6_memory_budget_amended_witness :
    ((([[((("x").toList), (("a").toList))]] : List MyDB.Row).map
        (fun r => [(("x").toList)].filterMap (fun c => r.lookup c))).map
      (fun t => (t.map List.length).sum)).sum ≤ 10
    ∧ MyDB.select_from parseNum List.length [(("x").toList)] none none false
        [(("x").toList)] 10 [[((("x").toList), (("a").toList))]] =
      .ok (.table
        (([[((("x").toList), (("a").toList))]] : List MyDB.Row).map
          (fun r => [(("x").toList)].filterMap (fun c => r.lookup c)))
        ((((([[((("x").toList), (("a").toList))]] : List MyDB.Row).map
          (fun r => [(("x").toList)].filterMap (fun c => r.lookup c)))).map
            (fun t => (t.map List.length).sum)).sum)) :=
  ⟨by decide,
    C6_memory_budget_amended.2.2 parseNum List.length [(("x").toList)] [(("x").toList)] 10
      [[((("x").toList), (("a").toList))]] (by decide)⟩

/-- C7 counterexample: with header `x` and the clause `b = 1 and c = 2`
(whose first leaf references the missing column `b`), the leaf evaluator
does raise the column-not-found ValueError, but `_evaluate_where` catches
it and returns false, so the query is not aborted: a scan over two rows
completes normally with an empty result instead of failing. -/
theorem C7_counterexample :
    MyDB.evaluate_single_condition [((("x").toList), (("1").toList))] [(("x").toList)]
        (("b = 1").toList) = .error (.columnNotFound (("b").toList))
    ∧ MyDB.evaluate_where [((("x").toList), (("1").toList))] [(("x").toList)]
        (("b = 1 and c = 2").toList) = .ok false
    ∧ filterE (fun r => MyDB.evaluate_where r [(("x").toList)] (("b = 1 and c = 2").toList))
        [[((("x").toList), (("1").toList))], [((("x").toList), (("2").toList))]] = .ok [] :=
  ⟨rfl, rfl, rfl⟩

/-- C7 amended: the leaf evaluators fail with the claimed errors — fewer
than 3 whitespace tokens gives the invalid-condition ValueError, a column
missing from the header gives column-not-found, an operator outside the
recognized set gives unsupported-operator — but `_evaluate_where` catches
every ValueError and returns false, so the error does not abort the query:
the scan continues over the remaining rows with every affected row
excluded from the result. -/
theorem C7_error_policy_amended :
    (∀ (row : MyDB.Row) (header : List Str) (cond : Str),
      (splitWs cond).length < 3 →
      MyDB.evaluate_single_condition row header cond = .error .invalidCondition)
    ∧ (∀ (row : MyDB.Row) (header : List Str) (cond col op v0 : Str) (vrest : List Str),
      splitWs cond = col :: op :: v0 :: vrest →
      col ∉ header →
      MyDB.evaluate_single_condition row header cond = .error (.columnNotFound col))
    ∧ (∀ (row : MyDB.Row) (header : List Str) (cond col op v0 : Str)
        (vrest : List Str) (rv : Str),
      splitWs cond = col :: op :: v0 :: vrest →
      col ∈ header →
      row.lookup col = some rv →
      op ∉ ([(("=").toList), (("==").toList), ((">=").toList), (("<=").toList),
        ((">").toList), (("<").toList), (("!=").toList), (("<>").toList)] : List Str) →
      MyDB.evaluate_single_condition row header cond = .error (.unsupportedOperator op))
    ∧ (∀ (row : MyDB.Row) (header : List Str) (clause : Str) (e : PyErr),
      MyDB.evaluate_where_core row header clause = .error e →
      e.isValueError = true →
      MyDB.evaluate_where row header clause = .ok false)
    ∧ (∀ (header : List Str) (clause : Str) (rows : List MyDB.Row),
      (∀ r ∈ rows, MyDB.evaluate_where r header clause = .ok false) →
      filterE (fun r => MyDB.evaluate_where r header clause) rows = .ok []) := by
  refine ⟨?_, ?_, ?_, ?_, ?_⟩
  · intro row header cond hlen
    unfold MyDB.evaluate_single_condition
    rcases h : splitWs cond with _ | ⟨a, _ | ⟨b, _ | ⟨c, rest⟩⟩⟩
    · rfl
    · rfl
    · rfl
    · rw [h] at hlen
      simp [List.length_cons] at hlen
      omega
  · intro row header cond col op v0 vrest hsplit hnot
    unfold MyDB.evaluate_single_condition
    rw [hsplit]
    simp [hnot]
  · intro row header cond col op v0 vrest rv hsplit hcol hrv hop
    have key := MyDB.single_cond_eval row header cond col op v0 vrest rv hsplit hcol hrv
    rw [key]
    simp only [List.mem_cons, List.not_mem_nil, not_or, or_false] at hop
    obtain ⟨h1, h2, h3, h4, h5, h6, h7, h8⟩ := hop
    simp only [beq_iff_eq, Bool.or_eq_true]
    rw [if_neg (by rintro (h | h) <;> exact absurd h (by assumption)), if_neg h3,
      if_neg h4, if_neg h5, if_neg h6,
      if_neg (by rintro (h | h) <;> exact absurd h (by assumption))]
  · intro row header clause e h he
    simp [MyDB.evaluate_where, h, catchVE, he]
  · intro header clause rows h
    induction rows with
    | nil => rfl
    | cons r rs ih =>
      rw [filterE, h r (List.mem_cons_self r rs)]
      exact ih (fun x hx => h x (List.mem_cons_of_mem r hx))

theorem C7_error_policy_amended_witness :
    (splitWs (("x").toList)).length < 3
    ∧ MyDB.evaluate_single_condition [] [] (("x").toList) = .error .invalidCondition :=
  ⟨by decide, C7_error_policy_amended.1 [] [] (("x").toList) (by decide)⟩

theorem max_one_pos (k : ℕ) (hk : 0 < k) : k.max 1 = k :=
  Nat.max_eq_left hk

theorem chunkRef_flatten (m : ℕ) : ∀ (n : ℕ) (rows : List (List Str)),
    rows.length ≤ n → (chunkRef m rows).flatten = rows := by
  intro n
  induction n with
  | zero =>
    intro rows h
    have : rows = [] := List.length_eq_zero.mp (Nat.le_zero.mp h)
    subst this
    rw [chunkRef]
    rfl
  | succ n ih =>
    intro rows h
    cases rows with
    | nil =>
      rw [chunkRef]
      rfl
    | cons r rs =>
      rw [chunkRef, List.flatten_cons]
      rw [ih ((r :: rs).drop (m.max 1))
        (by simp only [List.length_drop, List.length_cons] at h ⊢
            have hm : 1 ≤ m.max 1 := Nat.le_max_right m 1
            generalize hq : m.max 1 = q at hm ⊢
            omega)]
      exact List.take_append_drop _ _

theorem chunkRef_ne_nil (m : ℕ) (l : List (List Str)) (h : l ≠ []) :
    chunkRef m l = l.take (m.max 1) :: chunkRef m (l.drop (m.max 1)) := by
  cases l with
  | nil => exact absurd rfl h
  | cons r rs => rw [chunkRef]

theorem chunkLoop_eq (k : ℕ) : ∀ (rows chunk : List (List Str)),
    chunk.length < k.max 1 →
    MyDB.chunkLoop k rows chunk = chunkRef k (chunk ++ rows) := by
  intro rows
  induction rows with
  | nil =>
    intro chunk hinv
    rw [List.append_nil]
    cases chunk with
    | nil =>
      rw [chunkRef]
      rfl
    | cons c cs =>
      rw [chunkRef, MyDB.chunkLoop]
      rw [List.take_of_length_le (le_of_lt hinv), List.drop_of_length_le (le_of_lt hinv)]
      rw [chunkRef]
      rfl
  | cons r rs ih =>
    intro chunk hinv
    rw [MyDB.chunkLoop]
    by_cases he : k ≤ (chunk ++ [r]).length
    · rw [if_pos he, ih [] (by simp [Nat.lt_of_lt_of_le Nat.zero_lt_one (Nat.le_max_right k 1)])]
      rw [List.nil_append]
      have hlen : (chunk ++ [r]).length = k.max 1 := by
        rcases Nat.eq_zero_or_pos k with hk | hk
        · subst hk
          have h1 : Nat.max 0 1 = 1 := rfl
          rw [h1] at hinv ⊢
          simp only [List.length_append, List.length_singleton]
          omega
        · rw [max_one_pos k hk] at hinv ⊢
          simp at he hinv ⊢
          omega
      have hap : chunk ++ r :: rs = (chunk ++ [r]) ++ rs := by simp
      rw [hap, chunkRef_ne_nil k ((chunk ++ [r]) ++ rs) (by simp), ← hlen,
        List.take_left, List.drop_left]
    · rw [if_neg he, ih (chunk ++ [r]) ?_]
      · have : (chunk ++ [r]) ++ rs = chunk ++ r :: rs := by simp
        rw [this]
      · rcases Nat.eq_zero_or_pos k with hk | hk
        · subst hk
          exact absurd (Nat.zero_le _) he
        · rw [max_one_pos k hk]
          simp only [List.length_append, List.length_singleton] at he ⊢
          omega

/-- C8 counterexample: in `latest.py` a projection naming an unknown column
does not fail: projecting columns `x, zzz` against header `x` silently
omits `zzz` from every tuple and returns a normal result set. -/
theorem C8_counterexample :
    MyDB.select_from parseNum List.length [(("x").toList)] none none false
        [(("x").toList), (("zzz").toList)] 100
        [[((("x").toList), (("1").toList))]] =
      .ok (.table [[(("1").toList)]] 1) :=
  rfl

/-- C8 amended: `new_code_2.py`'s `select_from` resolves the projected
column names (whitespace-stripped) against the header once and aborts with
the column-not-found error when any projected column is missing; when all
columns are present the resolution yields their header positions.
`latest.py`'s projection instead silently omits unknown columns from each
result tuple (see the counterexample). -/
theorem C8_projection_amended :
    (∀ (header columns : List Str) (c : Str),
      c ∈ columns → stripWs c ∉ header →
      MyDB2.resolve_columns header columns = none)
    ∧ (∀ (header columns : List Str),
      (∀ c ∈ columns, stripWs c ∈ header) →
      MyDB2.resolve_columns header columns =
        some (columns.map (fun c => header.indexOf (stripWs c)))) := by
  constructor
  · intro header columns c hc hnot
    unfold MyDB2.resolve_columns MyDB2.col_indices
    have hlt : (columns.filter (fun c => decide (stripWs c ∈ header))).length <
        columns.length := by
      rw [List.length_filter_lt_length_iff_exists]
      exact ⟨c, hc, by simp [hnot]⟩
    simp only [List.length_map]
    rw [if_neg (by omega)]
  · intro header columns hall
    unfold MyDB2.resolve_columns MyDB2.col_indices
    rw [List.filter_eq_self.mpr (by intro c hc; simpa using hall c hc)]
    simp

theorem C8_projection_amended_witness :
    ((("zzz").toList) ∈ [(("zzz").toList)]
      ∧ stripWs (("zzz").toList) ∉ [(("x").toList)]
      ∧ MyDB2.resolve_columns [(("x").toList)] [(("zzz").toList)] = none)
    ∧ MyDB2.resolve_columns [(("x").toList)] [(("x").toList)] =
        some [[(("x").toList)].indexOf (stripWs (("x").toList))] :=
  ⟨⟨by decide, by decide,
    C8_projection_amended.1 [(("x").toList)] [(("zzz").toList)] (("zzz").toList)
      (by decide) (by decide)⟩,
   C8_projection_amended.2 [(("x").toList)] [(("x").toList)] (by decide)⟩

/-- C9: the chunk splitter fails with the table-not-found error when the
backing file is absent and with the insufficient-rows error when the file
has fewer rows than the 10-row sample; otherwise it derives the target
rows-per-chunk as the floor of the budget divided by the sampled average
row size and, with a minimum of one row per chunk, emits successive chunks
each holding exactly that many rows in original order (the final chunk
possibly smaller), covering every row exactly once; 25 rows at 10 rows per
chunk yield chunk sizes 10, 10, 5. -/
theorem C9_chunking :
    (∀ (sizeof : List Str → ℕ) (limit : ℕ),
      MyDB.chunk_csv sizeof none limit = .error .tableNotFound)
    ∧ (∀ (sizeof : List Str → ℕ) (limit : ℕ) (rows : List (List Str)),
      rows.length < 10 →
      MyDB.chunk_csv sizeof (some rows) limit = .error .insufficientRows)
    ∧ (∀ (sizeof : List Str → ℕ) (limit : ℕ) (rows : List (List Str)) (est : ℕ),
      MyDB.estimate_row_size sizeof rows = some est →
      0 < est →
      MyDB.chunk_csv sizeof (some rows) limit = .ok (chunkRef (limit / est) rows))
    ∧ (∀ (m : ℕ) (rows : List (List Str)), (chunkRef m rows).flatten = rows)
    ∧ ((MyDB.chunk_csv (fun _ => 10) (some (List.replicate 25 [(("r").toList)])) 100).map
        (fun chunks => chunks.map List.length) = .ok [10, 10, 5]) := by
  refine ⟨?_, ?_, ?_, ?_, ?_⟩
  · intro sizeof limit
    rfl
  · intro sizeof limit rows h
    simp only [MyDB.chunk_csv, MyDB.estimate_row_size]
    rw [if_pos h]
  · intro sizeof limit rows est hest hpos
    simp only [MyDB.chunk_csv, hest]
    rw [if_neg (by omega)]
    rw [chunkLoop_eq (limit / est) rows []
      (Nat.lt_of_lt_of_le Nat.zero_lt_one (Nat.le_max_right _ 1))]
    rfl
  · intro m rows
    exact chunkRef_flatten m rows.length rows (le_refl _)
  · rfl

theorem C9_chunking_witness :
    MyDB.estimate_row_size (fun _ => 10) (List.replicate 25 [(("r").toList)]) = some 10
    ∧ 0 < 10
    ∧ MyDB.chunk_csv (fun _ => 10) (some (List.replicate 25 [(("r").toList)])) 100 =
        .ok (chunkRef (100 / 10) (List.replicate 25 [(("r").toList)])) :=
  ⟨by decide, by decide,
    C9_chunking.2.2.1 (fun _ => 10) 100 (List.replicate 25 [(("r").toList)]) 10
      (by decide) (by decide)⟩

namespace MyDB

theorem scanRows_agg_limit (parse : Str → Option ℚ) (sizeof : Str → ℕ)
    (header : List Str) (wc : Option Str) (fn : AggFn) (col : Str) (distinct : Bool)
    (columns : List Str) (L1 L2 : ℕ) :
    ∀ (rows : List Row) (s : ScanState),
      scanRows parse sizeof header wc (some (fn, col)) distinct columns L1 rows s =
        scanRows parse sizeof header wc (some (fn, col)) distinct columns L2 rows s := by
  intro rows
  induction rows with
  | nil =>
    intro s
    rfl
  | cons r rest ih =>
    intro s
    rw [scanRows, scanRows]
    rcases hw : wherePassed r header wc with e | b
    · rfl
    · simp only [Except.bind]
      cases b
      · simp only [Bool.not_false, if_true, reduceIte]
        exact ih s
      · simp only [Bool.not_true, Bool.false_eq_true, if_false, reduceIte]
        rcases (r.lookup col).bind parse with _ | v
        · exact ih s
        · exact ih (aggUpdate fn v s)

end MyDB

/-- C10: the aggregate output of `select_from` is identical for every value
of the memory budget: the budget check lives only on the projection branch
of the scan, so an aggregate query consumes the entire filtered row stream
regardless of the memory limit, for every where clause, aggregate function
and target column. -/
theorem C10_aggregate_budget_independence :
    ∀ (parse : Str → Option ℚ) (sizeof : Str → ℕ) (header : List Str)
      (wc : Option Str) (fn : MyDB.AggFn) (col : Str) (distinct : Bool)
      (columns : List Str) (rows : List MyDB.Row) (L1 L2 : ℕ),
      MyDB.select_from parse sizeof header wc (some (fn, col)) distinct columns L1 rows =
        MyDB.select_from parse sizeof header wc (some (fn, col)) distinct columns L2 rows := by
  intro parse sizeof header wc fn col distinct columns rows L1 L2
  unfold MyDB.select_from
  rw [MyDB.scanRows_agg_limit parse sizeof header wc fn col distinct columns L1 L2]
